import Mathlib

/-!
# icemon: the Gantt status view (`ganttstatusview.cc`)

A shallow embedding of the per-node job timeline (`GanttProgress`) and of the
registry of timelines (`GanttStatusView`), followed by theorems about them.

Conventions of the embedding

* `QValueList< QPair<Job,int> > m_jobs` is a Qt 3 value list: a circular list
  whose end node carries a default-constructed element.  `first()` and `last()`
  of an empty list hand out a reference to that end node (the range check of
  the header is compiled out), so reads and writes through them land there.
  The end node is the field `m_end`; the real elements are `m_jobs`.
* `int` is `Int`; no run of the program modelled here comes near the 32-bit
  limits, so overflow is not modelled.
* `width()` of the widget is an argument of the operations that read it.
* The `while` loop of `adjustGraph` takes fuel: one unit per evaluation of the
  loop condition; `none` means the fuel ran out.
* Painting, layout and the timer wiring are not modelled.
-/

namespace Icemon

/-- Modelled from the spec: the enum `Job::State` of job.h, which is not among
the sources.  The code names `Finished`, `Failed` and `Idle`; the other stages
are the ones the spec lists. -/
inductive State where
  | LocalOnly
  | WaitingForHost
  | Compiling
  | Sending
  | Idle
  | Finished
  | Failed
deriving DecidableEq, Repr

/-- Modelled from the spec: the class `Job` of job.h, which is not among the
sources.  The fields are the accessors that ganttstatusview.cc calls
(`state()`, `fileName()`, `client()`, `server()`) and an identity. -/
structure Job where
  jobId : Nat
  state : State
  fileName : String
  client : String
  server : String
deriving DecidableEq, Repr

/-- Modelled from the spec: the parts of job.h that ganttstatusview.cc uses and
that are not among the sources.  `eq` is `Job::operator==`, `idleJob` is the
value of `IdleJob()` and `defaultJob` is the value of `Job()`.  They are
parameters of every operation below. -/
structure JobHeader where
  eq : Job → Job → Bool
  idleJob : Job
  defaultJob : Job

/-- Modelled from the spec: one instance of job.h.  Equality is by identity
(`jobId`), the idle job has stage `Idle` and empty names. -/
def stdJobs : JobHeader where
  eq := fun a b => a.jobId == b.jobId
  idleJob := ⟨0, State.Idle, "", "", ""⟩
  defaultJob := ⟨0, State.WaitingForHost, "", "", ""⟩

/-- One run: `QPair<Job,int>`. -/
abbrev Run := Job × Int

/-- The `operator==` of `QPair<Job,int>`: both components equal. -/
def pairEq (h : JobHeader) (x y : Run) : Bool :=
  h.eq x.1 y.1 && x.2 == y.2

/-- `QValueList::remove( const T &x )`: removes every element equal to `x`. -/
def remove (h : JobHeader) (x : Run) (l : List Run) : List Run :=
  l.filter (fun y => !pairEq h y x)

/-- Applies `f` to the duration of the last element of a non-empty list. -/
def modifyLastRun (f : Int → Int) : List Run → List Run
  | [] => []
  | [x] => [(x.1, f x.2)]
  | x :: y :: ys => x :: modifyLastRun f (y :: ys)

/-- The state of one `GanttProgress` widget. -/
structure GanttProgress where
  m_end : Run
  m_jobs : List Run
  m_totalWidth : Int
deriving DecidableEq, Repr

namespace GanttProgress

/-- The constructor `GanttProgress::GanttProgress`: an empty list (whose end
node holds `QPair<Job,int>()`, that is `(Job(), 0)`) and `m_totalWidth = 0`. -/
def new (h : JobHeader) : GanttProgress :=
  { m_end := (h.defaultJob, 0), m_jobs := [], m_totalWidth := 0 }

/-- The element `m_jobs.first()` refers to. -/
def first (t : GanttProgress) : Run :=
  match t.m_jobs with
  | [] => t.m_end
  | x :: _ => x

/-- The element `m_jobs.last()` refers to. -/
def last (t : GanttProgress) : Run :=
  match t.m_jobs.getLast? with
  | none => t.m_end
  | some x => x

/-- A write `m_jobs.first().second = f (m_jobs.first().second)`. -/
def modifyFirst (f : Int → Int) (t : GanttProgress) : GanttProgress :=
  match t.m_jobs with
  | [] => { t with m_end := (t.m_end.1, f t.m_end.2) }
  | x :: xs => { t with m_jobs := (x.1, f x.2) :: xs }

/-- A write `m_jobs.last().second = f (m_jobs.last().second)`. -/
def modifyLast (f : Int → Int) (t : GanttProgress) : GanttProgress :=
  match t.m_jobs with
  | [] => { t with m_end := (t.m_end.1, f t.m_end.2) }
  | x :: xs => { t with m_jobs := modifyLastRun f (x :: xs) }

/-- The loop of `adjustGraph`:
`while ( delta >= m_jobs.first().second ) { delta -= m_jobs.first().second;
m_jobs.remove( m_jobs.first() ); }`.  Returns `delta` and the state at exit. -/
def adjustLoop (h : JobHeader) : Nat → Int → GanttProgress → Option (Int × GanttProgress)
  | 0, _, _ => none
  | fuel + 1, delta, t =>
    if delta ≥ (first t).2 then
      adjustLoop h fuel (delta - (first t).2)
        { t with m_jobs := remove h (first t) t.m_jobs }
    else
      some (delta, t)

/-- The function `GanttProgress::adjustGraph` with `width() = w`. -/
def adjustGraph (h : JobHeader) (fuel : Nat) (w : Int) (t : GanttProgress) :
    Option GanttProgress :=
  if t.m_totalWidth < w then
    some t
  else
    match adjustLoop h fuel (t.m_totalWidth - w) t with
    | none => none
    | some (delta, t1) =>
      some { modifyFirst (fun d => d - delta) t1 with m_totalWidth := w }

/-- The function `GanttProgress::progress` with `width() = w`. -/
def progress (h : JobHeader) (fuel : Nat) (w : Int) (t : GanttProgress) :
    Option GanttProgress :=
  let t1 := modifyLast (fun d => d + 1) t
  adjustGraph h fuel w { t1 with m_totalWidth := t1.m_totalWidth + 1 }

/-- The function `GanttProgress::update`. -/
def update (h : JobHeader) (t : GanttProgress) (job : Job) : GanttProgress :=
  if h.eq (last t).1 job then
    if job.state = State.Finished ∨ job.state = State.Failed then
      { t with m_jobs := t.m_jobs ++ [(h.idleJob, 1)] }
    else
      modifyLast (fun d => d + 1) t
  else
    { t with m_jobs := t.m_jobs ++ [(job, 1)] }

/-- The function `GanttProgress::resizeEvent`; `w` is the width after the
resize. -/
def resizeEvent (h : JobHeader) (fuel : Nat) (w : Int) (t : GanttProgress) :
    Option GanttProgress :=
  adjustGraph h fuel w t

/-- The width that `drawGraph` paints: the sum of the durations of the runs. -/
def sumDurations (l : List Run) : Int :=
  (l.map (fun r => r.2)).sum

end GanttProgress

/-- One call on a timeline, as the claims about call sequences name them:
`record job` is `GanttProgress::update( job )`, `tick` is
`GanttProgress::progress()`, and `setCapacity w` is a resize of the widget to
width `w` followed by `resizeEvent`, which runs `adjustGraph`. -/
inductive Call where
  | record (job : Job)
  | tick
  | setCapacity (w : Int)
deriving DecidableEq, Repr

/-- A widget together with its current `width()`. -/
structure Timeline where
  capacity : Int
  widget : GanttProgress
deriving DecidableEq, Repr

/-- The effect of one call; `none` when the loop of `adjustGraph` runs out of
fuel. -/
def Timeline.step (h : JobHeader) (fuel : Nat) (s : Timeline) : Call → Option Timeline
  | Call.record job => some { s with widget := s.widget.update h job }
  | Call.tick => (s.widget.progress h fuel s.capacity).map (fun g => { s with widget := g })
  | Call.setCapacity w => (s.widget.resizeEvent h fuel w).map (fun g => ⟨w, g⟩)

/-- The effect of a sequence of calls, each with the same fuel. -/
def Timeline.run (h : JobHeader) (fuel : Nat) : Timeline → List Call → Option Timeline
  | s, [] => some s
  | s, c :: cs =>
    match s.step h fuel c with
    | none => none
    | some s1 => Timeline.run h fuel s1 cs

/-- A colour: the three channels handed to `QColor( r, g, b )`. -/
abbrev Color := Nat × Nat × Nat

/-- The state of the `GanttStatusView`: the map from host name to timeline,
the host colours, and the function-local `static int num` of
`createHostColor`. -/
structure GanttStatusView where
  m_nodeMap : List (String × GanttProgress)
  mHostColors : List (String × Color)
  num : Nat
deriving DecidableEq, Repr

namespace GanttStatusView

/-- `QMap::contains`. -/
def contains {α : Type} (m : List (String × α)) (k : String) : Bool :=
  m.any (fun p => p.1 == k)

/-- `QMap::operator[]` read, on a key that may be absent. -/
def find? {α : Type} (m : List (String × α)) (k : String) : Option α :=
  (m.find? (fun p => p.1 == k)).map (fun p => p.2)

/-- The assignment `m[ k ] = v`: replaces the entry of `k`, or adds one. -/
def assign {α : Type} (m : List (String × α)) (k : String) (v : α) : List (String × α) :=
  if contains m k then m.map (fun p => if p.1 == k then (k, v) else p) else m ++ [(k, v)]

/-- The function `GanttStatusView::createHostColor`. -/
def createHostColor (v : GanttStatusView) (host : String) : GanttStatusView :=
  if contains v.mHostColors host then v
  else
    { v with
      mHostColors := assign v.mHostColors host (v.num, 255 - v.num, (v.num * 3) % 255)
      num := (v.num + 48) % 255 }

/-- The function `GanttStatusView::registerNode`; the label and the layout are
not modelled. -/
def registerNode (h : JobHeader) (v : GanttStatusView) (name : String) : GanttStatusView :=
  let v1 := createHostColor v name
  { v1 with m_nodeMap := assign v1.m_nodeMap name (GanttProgress.new h) }

/-- The function `GanttStatusView::checkForNewNodes`. -/
def checkForNewNodes (h : JobHeader) (v : GanttStatusView) (job : Job) : GanttStatusView :=
  if job.server.isEmpty then v
  else
    let v1 := if !contains v.m_nodeMap job.server then registerNode h v job.server else v
    createHostColor v1 job.client

/-- The function `GanttStatusView::updateNodes`. -/
def updateNodes (h : JobHeader) (v : GanttStatusView) (job : Job) : GanttStatusView :=
  match find? v.m_nodeMap job.server with
  | some w => { v with m_nodeMap := assign v.m_nodeMap job.server (w.update h job) }
  | none => v

/-- The function `GanttStatusView::update`. -/
def update (h : JobHeader) (v : GanttStatusView) (job : Job) : GanttStatusView :=
  updateNodes h (checkForNewNodes h v job) job

end GanttStatusView

/-- Test data: a job being compiled. -/
def jobA : Job := ⟨1, State.Compiling, "a.cc", "client1", "node1"⟩

/-- Test data: a second job, different from `jobA`. -/
def jobB : Job := ⟨2, State.Compiling, "b.cc", "client1", "node1"⟩

/-- Test data: a third job. -/
def jobC : Job := ⟨3, State.Compiling, "c.cc", "client1", "node1"⟩

/-- The jobs of the runs are pairwise different for `operator==`: no later run
holds a job equal to the job of an earlier one. -/
def DistinctJobs (h : JobHeader) (l : List Run) : Prop :=
  (l.map (fun r => r.1)).Pairwise (fun a b => h.eq b a = false)

namespace GanttProgress

end GanttProgress

/-! ## Compaction on a seeded timeline -/

theorem remove_front (h : JobHeader) (hrefl : ∀ j, h.eq j j = true) (x : Run) (xs : List Run)
    (hd : DistinctJobs h (x :: xs)) : remove h x (x :: xs) = xs := by
  have hx : ∀ y ∈ xs, h.eq y.1 x.1 = false := by
    intro y hy
    have hd1 : List.Pairwise (fun a b => h.eq b a = false)
        (x.1 :: xs.map (fun r => r.1)) := hd
    exact (List.pairwise_cons.mp hd1).1 y.1 (List.mem_map.mpr ⟨y, hy, rfl⟩)
  unfold remove
  rw [List.filter_cons]
  have hxx : pairEq h x x = true := by simp [pairEq, hrefl]
  simp only [hxx, Bool.not_true]
  simp only [Bool.false_eq_true, if_false]
  rw [List.filter_eq_self]
  intro y hy
  simp [pairEq, hx y hy]

theorem distinctJobs_tail (h : JobHeader) (x : Run) (xs : List Run)
    (hd : DistinctJobs h (x :: xs)) : DistinctJobs h xs := by
  unfold DistinctJobs at hd ⊢
  rw [List.map_cons] at hd
  exact (List.pairwise_cons.mp hd).2

namespace GanttProgress

theorem sumDurations_cons (x : Run) (xs : List Run) :
    sumDurations (x :: xs) = x.2 + sumDurations xs := by
  simp [sumDurations]

/-- The loop of `adjustGraph` on a list of runs with pairwise different jobs:
when `0 ≤ delta < sum of the durations`, it stops after at most one step per
run, on a non-empty suffix whose front run is longer than what is left of
`delta`. -/
theorem adjustLoop_seeded (h : JobHeader) (hrefl : ∀ j, h.eq j j = true) (e : Run) (T : Int) :
    ∀ (l : List Run) (fuel : Nat) (delta : Int),
      DistinctJobs h l → l.length + 1 ≤ fuel → 0 ≤ delta → delta < sumDurations l →
      ∃ (d : Int) (r : Run) (rest : List Run),
        adjustLoop h fuel delta ⟨e, l, T⟩ = some (d, ⟨e, r :: rest, T⟩) ∧
        (r :: rest) <:+ l ∧ 0 ≤ d ∧ d < r.2 ∧
        sumDurations (r :: rest) - d = sumDurations l - delta := by
  intro l
  induction l with
  | nil =>
    intro fuel delta _ _ h0 hlt
    simp [sumDurations] at hlt
    omega
  | cons x xs ih =>
    intro fuel delta hd hf h0 hlt
    obtain ⟨f, rfl⟩ : ∃ f, fuel = f + 1 := ⟨fuel - 1, by omega⟩
    by_cases hc : delta ≥ x.2
    · have hstep : adjustLoop h (f + 1) delta ⟨e, x :: xs, T⟩
          = adjustLoop h f (delta - x.2) ⟨e, xs, T⟩ := by
        rw [adjustLoop]
        simp only [first]
        rw [if_pos hc, remove_front h hrefl x xs hd]
      rw [sumDurations_cons] at hlt
      have hf2 : xs.length + 1 ≤ f := by simp at hf; omega
      obtain ⟨d, r, rest, hres, hsuf, hd0, hdr, hsum⟩ :=
        ih f (delta - x.2) (distinctJobs_tail h x xs hd) hf2 (by omega) (by omega)
      refine ⟨d, r, rest, ?_, ?_, hd0, hdr, ?_⟩
      · rw [hstep, hres]
      · exact hsuf.trans (List.suffix_cons x xs)
      · rw [hsum, sumDurations_cons]; ring
    · refine ⟨delta, x, xs, ?_, List.suffix_refl _, h0, by omega, rfl⟩
      rw [adjustLoop]
      simp only [first]
      rw [if_neg hc]

end GanttProgress

/-! ## What compaction does when no job occurs twice -/

namespace GanttProgress

/-- With pairwise different jobs, `adjustGraph` at a width not above the total
drops a prefix of the runs and shortens the first run that stays: the runs
after it are the old ones. -/
theorem adjustGraph_trims_front (h : JobHeader) (hrefl : ∀ j, h.eq j j = true)
    (e : Run) (l : List Run) (T w : Int) (fuel : Nat)
    (hdis : DistinctJobs h l) (hf : l.length + 1 ≤ fuel) (hwT : w ≤ T)
    (hcov : T - w < sumDurations l) :
    ∃ (d : Int) (r : Run) (rest : List Run),
      adjustGraph h fuel w ⟨e, l, T⟩ = some ⟨e, (r.1, r.2 - d) :: rest, w⟩ ∧
      (r :: rest) <:+ l ∧ 0 ≤ d ∧ d < r.2 ∧
      sumDurations (r :: rest) - d = sumDurations l - (T - w) := by
  obtain ⟨d, r, rest, hres, hsuf, hd0, hdr, hsum⟩ :=
    adjustLoop_seeded h hrefl e T l fuel (T - w) hdis hf (by omega) hcov
  refine ⟨d, r, rest, ?_, hsuf, hd0, hdr, hsum⟩
  have hlt : ¬ T < w := by omega
  simp [adjustGraph, hlt, hres, modifyFirst]

theorem length_le_sumDurations (l : List Run) (hpos : ∀ r ∈ l, 1 ≤ r.2) :
    (l.length : Int) ≤ sumDurations l := by
  induction l with
  | nil => simp [sumDurations]
  | cons x xs ih =>
    rw [sumDurations_cons]
    have hx := hpos x (List.mem_cons_self _ _)
    have hxs := ih (fun r hr => hpos r (List.mem_cons_of_mem _ hr))
    simp only [List.length_cons]
    push_cast
    omega

/-- With pairwise different jobs, durations of at least 1 and a total equal to
the sum of the durations, a resize to width 1 leaves the single run
`(job of the last run, 1)` and the total 1. -/
theorem adjustGraph_shrink_to_one (h : JobHeader) (hrefl : ∀ j, h.eq j j = true)
    (e : Run) (pre : List Run) (x : Run) (fuel : Nat)
    (hpos : ∀ r ∈ pre ++ [x], 1 ≤ r.2) (hdis : DistinctJobs h (pre ++ [x]))
    (hf : (pre ++ [x]).length + 1 ≤ fuel) :
    adjustGraph h fuel 1 ⟨e, pre ++ [x], sumDurations (pre ++ [x])⟩
      = some ⟨e, [(x.1, 1)], 1⟩ := by
  have hlen := length_le_sumDurations (pre ++ [x]) hpos
  have hl1 : (1 : Int) ≤ ((pre ++ [x]).length : Int) := by simp
  obtain ⟨d, r, rest, hres, hsuf, hd0, hdr, hsum⟩ :=
    adjustGraph_trims_front h hrefl e (pre ++ [x]) (sumDurations (pre ++ [x])) 1 fuel
      hdis hf (by omega) (by omega)
  have hrest : rest = [] := by
    have hp : ∀ q ∈ rest, 1 ≤ q.2 := fun q hq =>
      hpos q (hsuf.subset (List.mem_cons_of_mem _ hq))
    have hl := length_le_sumDurations rest hp
    rw [sumDurations_cons] at hsum
    have h0 : (rest.length : Int) ≤ 0 := by omega
    exact List.length_eq_zero.mp (by omega)
  subst hrest
  have hr : r = x := by
    obtain ⟨p, hp⟩ := hsuf
    have := List.append_inj' hp rfl
    simpa using this.2
  subst hr
  rw [hres]
  have e1 : sumDurations [r] = r.2 := by simp [sumDurations]
  rw [e1] at hsum
  have : r.2 - d = 1 := by omega
  rw [this]

end GanttProgress

/-! ## Durations stay positive -/

namespace GanttProgress

end GanttProgress

/-! ## Sequences of ticks and resizes -/

namespace GanttProgress

/-- On an empty list whose end node holds the duration 0, the loop of
`adjustGraph` never stops when `delta` is not negative: the condition
`delta >= m_jobs.first().second` stays true and nothing changes. -/
theorem adjustLoop_empty_spins (h : JobHeader) (j : Job) (T : Int) :
    ∀ (fuel : Nat) (delta : Int), 0 ≤ delta →
      adjustLoop h fuel delta ⟨(j, 0), [], T⟩ = none := by
  intro fuel
  induction fuel with
  | zero => intro delta _; rfl
  | succ f ih =>
    intro delta hd
    rw [adjustLoop]
    simp only [first, remove, List.filter_nil]
    rw [if_pos hd]
    simpa using ih delta hd

end GanttProgress

/-! ## More fuel does not change a result -/

namespace GanttProgress

theorem adjustLoop_fuel_mono (h : JobHeader) :
    ∀ (f : Nat) (delta : Int) (t : GanttProgress) (r : Int × GanttProgress),
      adjustLoop h f delta t = some r → ∀ f1, f ≤ f1 → adjustLoop h f1 delta t = some r := by
  intro f
  induction f with
  | zero =>
    intro delta t r hres
    simp [adjustLoop] at hres
  | succ f ih =>
    intro delta t r hres f1 hle
    obtain ⟨g, rfl⟩ : ∃ g, f1 = g + 1 := ⟨f1 - 1, by omega⟩
    rw [adjustLoop] at hres ⊢
    by_cases hc : delta ≥ (first t).2
    · rw [if_pos hc] at hres ⊢
      exact ih _ _ r hres g (by omega)
    · rw [if_neg hc] at hres ⊢
      exact hres

theorem adjustGraph_fuel_mono (h : JobHeader) (f f1 : Nat) (w : Int) (t t1 : GanttProgress)
    (hres : adjustGraph h f w t = some t1) (hle : f ≤ f1) :
    adjustGraph h f1 w t = some t1 := by
  unfold adjustGraph at hres ⊢
  by_cases hlt : t.m_totalWidth < w
  · rw [if_pos hlt] at hres ⊢
    exact hres
  · rw [if_neg hlt] at hres ⊢
    cases hl : adjustLoop h f (t.m_totalWidth - w) t with
    | none => rw [hl] at hres; simp at hres
    | some r =>
      rw [adjustLoop_fuel_mono h f _ t r hl f1 hle]
      rw [hl] at hres
      exact hres

end GanttProgress

theorem step_fuel_mono (h : JobHeader) (f f1 : Nat) (s s1 : Timeline) (c : Call)
    (hres : s.step h f c = some s1) (hle : f ≤ f1) : s.step h f1 c = some s1 := by
  cases c with
  | record job => exact hres
  | tick =>
    simp only [Timeline.step, GanttProgress.progress] at hres ⊢
    cases hg : GanttProgress.adjustGraph h f s.capacity
        { GanttProgress.modifyLast (fun d => d + 1) s.widget with
          m_totalWidth := (GanttProgress.modifyLast (fun d => d + 1) s.widget).m_totalWidth + 1 } with
    | none => rw [hg] at hres; simp at hres
    | some g =>
      rw [GanttProgress.adjustGraph_fuel_mono h f f1 _ _ g hg hle]
      rw [hg] at hres
      exact hres
  | setCapacity w =>
    simp only [Timeline.step, GanttProgress.resizeEvent] at hres ⊢
    cases hg : GanttProgress.adjustGraph h f w s.widget with
    | none => rw [hg] at hres; simp at hres
    | some g =>
      rw [GanttProgress.adjustGraph_fuel_mono h f f1 _ _ g hg hle]
      rw [hg] at hres
      exact hres

theorem run_fuel_mono (h : JobHeader) (f f1 : Nat) (hle : f ≤ f1) :
    ∀ (calls : List Call) (s s1 : Timeline),
      Timeline.run h f s calls = some s1 → Timeline.run h f1 s calls = some s1 := by
  intro calls
  induction calls with
  | nil => intro s s1 hres; exact hres
  | cons c cs ih =>
    intro s s1 hres
    rw [Timeline.run] at hres ⊢
    cases hs : s.step h f c with
    | none => rw [hs] at hres; simp at hres
    | some s2 =>
      rw [step_fuel_mono h f f1 s s2 c hs hle]
      rw [hs] at hres
      exact ih s2 s1 hres

theorem run_append (h : JobHeader) (f : Nat) :
    ∀ (cs ds : List Call) (s s1 : Timeline),
      Timeline.run h f s cs = some s1 →
      Timeline.run h f s (cs ++ ds) = Timeline.run h f s1 ds := by
  intro cs
  induction cs with
  | nil =>
    intro ds s s1 hres
    simp only [Timeline.run, Option.some.injEq] at hres
    subst hres
    rfl
  | cons c cs ih =>
    intro ds s s1 hres
    rw [List.cons_append, Timeline.run]
    rw [Timeline.run] at hres
    cases hs : s.step h f c with
    | none => rw [hs] at hres; simp at hres
    | some s2 =>
      rw [hs] at hres
      exact ih ds s2 s1 hres

/-! ## The registry on a report for a new host -/

namespace GanttStatusView

theorem createHostColor_nodeMap (v : GanttStatusView) (host : String) :
    (createHostColor v host).m_nodeMap = v.m_nodeMap := by
  unfold createHostColor
  split <;> rfl

theorem find?_absent {α : Type} (m : List (String × α)) (k : String)
    (hk : contains m k = false) : find? m k = none := by
  unfold contains at hk
  unfold find?
  rw [List.any_eq_false] at hk
  have : m.find? (fun p => p.1 == k) = none := by
    rw [List.find?_eq_none]
    intro p hp
    exact hk p hp
  rw [this]
  rfl

theorem map_absent {α : Type} (m : List (String × α)) (k : String) (v : α)
    (hk : contains m k = false) :
    m.map (fun p => if p.1 == k then (k, v) else p) = m := by
  unfold contains at hk
  rw [List.any_eq_false] at hk
  conv_rhs => rw [← List.map_id m]
  apply List.map_congr_left
  intro p hp
  have := hk p hp
  simp only [id]
  rw [if_neg this]

/-- A report for a host that is not yet registered, with a job that
`operator==` tells apart from `Job()`: the host is added to the map, once and
after the hosts already there, its timeline is the single run `(job, 1)` with
`m_totalWidth` 0, and no other entry changes. -/
theorem update_new_host (h : JobHeader) (v : GanttStatusView) (job : Job)
    (hs : job.server.isEmpty = false) (hnew : contains v.m_nodeMap job.server = false)
    (hd : h.eq h.defaultJob job = false) :
    (update h v job).m_nodeMap
      = v.m_nodeMap ++ [(job.server, ⟨(h.defaultJob, 0), [(job, 1)], 0⟩)] := by
  have hreg : (checkForNewNodes h v job).m_nodeMap
      = v.m_nodeMap ++ [(job.server, GanttProgress.new h)] := by
    unfold checkForNewNodes
    simp only [hs, Bool.false_eq_true, if_false, hnew, Bool.not_false, if_true]
    rw [createHostColor_nodeMap]
    unfold registerNode
    simp only [createHostColor_nodeMap]
    unfold assign
    rw [hnew]
    simp
  have hfind : find? (checkForNewNodes h v job).m_nodeMap job.server
      = some (GanttProgress.new h) := by
    rw [hreg]
    unfold find?
    rw [List.find?_append]
    have hnone := find?_absent v.m_nodeMap job.server hnew
    unfold find? at hnone
    cases hf : List.find? (fun p => p.1 == job.server) v.m_nodeMap with
    | some p => rw [hf] at hnone; simp at hnone
    | none => simp
  have hupd : GanttProgress.update h (GanttProgress.new h) job
      = ⟨(h.defaultJob, 0), [(job, 1)], 0⟩ := by
    simp [GanttProgress.update, GanttProgress.new, GanttProgress.last, hd]
  unfold update updateNodes
  rw [hfind]
  simp only
  rw [hreg, hupd]
  unfold assign
  have hc : contains (v.m_nodeMap ++ [(job.server, GanttProgress.new h)]) job.server = true := by
    simp [contains]
  rw [hc]
  simp only [if_true, List.map_append, map_absent _ _ _ hnew]
  simp

end GanttStatusView

/-! ## The claims -/

/-- C1 at its failing input: the first report on a freshly constructed
timeline.  `update` appends the run `(jobA, 1)`, so the durations sum to 1,
and leaves `m_totalWidth` at 0. -/
theorem C1_update_leaves_total :
    GanttProgress.update stdJobs (GanttProgress.new stdJobs) jobA
        = ⟨(stdJobs.defaultJob, 0), [(jobA, 1)], 0⟩ ∧
    GanttProgress.sumDurations
        (GanttProgress.update stdJobs (GanttProgress.new stdJobs) jobA).m_jobs = 1 ∧
    (GanttProgress.update stdJobs (GanttProgress.new stdJobs) jobA).m_totalWidth = 0 := by
  refine ⟨by decide, by decide, by decide⟩

/-- C5 at its failing input: the runs `[(jobA, 1), (jobB, 1), (jobA, 1)]` with
total 3, resized to width 1.  The first pass of the loop removes both runs
`(jobA, 1)`, the second removes `(jobB, 1)`; the list is then empty, the run
`(jobA, 1)` the claim expects is gone, and the loop goes on reading the end
node, so that no amount of fuel lets `adjustGraph` return. -/
theorem C5_shrink_with_repeated_run :
    remove stdJobs (jobB, 1) (remove stdJobs (jobA, 1) [(jobA, 1), (jobB, 1), (jobA, 1)]) = [] ∧
    ∀ fuel, GanttProgress.resizeEvent stdJobs fuel 1
      ⟨(stdJobs.defaultJob, 0), [(jobA, 1), (jobB, 1), (jobA, 1)], 3⟩ = none := by
  refine ⟨by decide, ?_⟩
  intro fuel
  have r1 : remove stdJobs (jobA, 1) [(jobA, 1), (jobB, 1), (jobA, 1)] = [(jobB, 1)] := by
    decide
  have r2 : remove stdJobs (jobB, 1) [(jobB, 1)] = [] := by decide
  have hloop : GanttProgress.adjustLoop stdJobs fuel 2
      ⟨(stdJobs.defaultJob, 0), [(jobA, 1), (jobB, 1), (jobA, 1)], 3⟩ = none := by
    cases fuel with
    | zero => rfl
    | succ f =>
      rw [GanttProgress.adjustLoop]
      simp only [GanttProgress.first]
      rw [if_pos (by decide), r1]
      cases f with
      | zero => rfl
      | succ f =>
        rw [GanttProgress.adjustLoop]
        simp only [GanttProgress.first]
        rw [if_pos (by decide), r2]
        exact GanttProgress.adjustLoop_empty_spins stdJobs _ _ f _ (by decide)
  unfold GanttProgress.resizeEvent GanttProgress.adjustGraph
  rw [if_neg (by decide)]
  have e : (3 : Int) - 1 = 2 := by decide
  simp only [e, hloop]

/-- C6, as stated, fails.  On a freshly constructed timeline of width 100,
`progress()` returns and leaves the list of runs empty, but `m_totalWidth` is
1 afterwards, not 0. -/
theorem C6_counterexample :
    GanttProgress.progress stdJobs 1 100 (GanttProgress.new stdJobs)
        = some ⟨(stdJobs.defaultJob, 1), [], 1⟩ ∧
    ¬ ∃ t1, GanttProgress.progress stdJobs 1 100 (GanttProgress.new stdJobs) = some t1 ∧
        t1.m_jobs = [] ∧ t1.m_totalWidth = 0 := by
  have e : GanttProgress.progress stdJobs 1 100 (GanttProgress.new stdJobs)
      = some ⟨(stdJobs.defaultJob, 1), [], 1⟩ := by decide
  refine ⟨e, ?_⟩
  rintro ⟨t1, h1, _, h3⟩
  rw [e] at h1
  simp only [Option.some.injEq] at h1
  subst h1
  simp at h3

/-- C6, amended.  On a freshly constructed timeline and a width of at least 1,
`progress()` returns (one unit of fuel is enough) and leaves the list of runs
empty, but it is not a no-op: both increments are unconditional, so
`m_totalWidth` becomes 1 and the duration kept in the end node of the empty
list, which `m_jobs.last()` refers to, becomes 1 as well. -/
theorem C6_progress_on_fresh (h : JobHeader) (fuel : Nat) (w : Int) (hw : 1 ≤ w)
    (hf : 1 ≤ fuel) :
    GanttProgress.progress h fuel w (GanttProgress.new h)
      = some ⟨(h.defaultJob, 1), [], 1⟩ := by
  obtain ⟨f, rfl⟩ : ∃ f, fuel = f + 1 := ⟨fuel - 1, by omega⟩
  by_cases h1 : (1 : Int) < w
  · simp [GanttProgress.progress, GanttProgress.new, GanttProgress.modifyLast,
      GanttProgress.adjustGraph, h1]
  · have hw1 : w = 1 := by omega
    subst hw1
    simp [GanttProgress.progress, GanttProgress.new, GanttProgress.modifyLast,
      GanttProgress.adjustGraph, GanttProgress.adjustLoop, GanttProgress.first,
      GanttProgress.modifyFirst]

/-- Witness of C6, amended: width 1, fuel 1. -/
theorem C6_progress_on_fresh_witness :
    GanttProgress.progress stdJobs 1 1 (GanttProgress.new stdJobs)
      = some ⟨(stdJobs.defaultJob, 1), [], 1⟩ :=
  C6_progress_on_fresh stdJobs 1 1 (by decide) (by decide)

/-- C7 at its failing input: a registry that knows `node0` receives `jobA`,
whose server `node1` is new.  `node1` becomes a key, once, its timeline is the
single run `(jobA, 1)`, the timeline of `node0` is as before, and the
`m_totalWidth` of the new timeline is 0. -/
theorem C7_new_host_total_is_zero :
    GanttStatusView.update stdJobs
        ⟨[("node0", ⟨(stdJobs.defaultJob, 0), [(jobB, 3)], 2⟩)], [("node0", (0, 255, 0))], 48⟩
        jobA
      = ⟨[("node0", ⟨(stdJobs.defaultJob, 0), [(jobB, 3)], 2⟩),
          ("node1", ⟨(stdJobs.defaultJob, 0), [(jobA, 1)], 0⟩)],
         [("node0", (0, 255, 0)), ("node1", (48, 207, 144)), ("client1", (96, 159, 33))],
         144⟩ := by
  decide

/-- C9 at its failing input.  On a fresh timeline of width 100 the reports and
ticks `jobA`, tick, `jobB`, tick, `jobA`, tick, `jobC`, tick lead to the runs
`[(jobA, 2), (jobB, 2), (jobA, 2), (jobC, 2)]` with total 4.  At width 2 two
ticks have to go; removing the front run `(jobA, 2)` by value also removes the
third run, which lies between two runs that stay.  The jobs left are not a
suffix of the jobs before. -/
theorem C9_front_removal_takes_later_equal_run :
    Timeline.run stdJobs 0 ⟨100, GanttProgress.new stdJobs⟩
        [Call.record jobA, Call.tick, Call.record jobB, Call.tick,
          Call.record jobA, Call.tick, Call.record jobC, Call.tick]
      = some ⟨100, ⟨(stdJobs.defaultJob, 0),
          [(jobA, 2), (jobB, 2), (jobA, 2), (jobC, 2)], 4⟩⟩ ∧
    GanttProgress.adjustGraph stdJobs 2 2
        ⟨(stdJobs.defaultJob, 0), [(jobA, 2), (jobB, 2), (jobA, 2), (jobC, 2)], 4⟩
      = some ⟨(stdJobs.defaultJob, 0), [(jobB, 2), (jobC, 2)], 2⟩ ∧
    ¬ ([jobB, jobC] <:+ [jobA, jobB, jobA, jobC]) := by
  refine ⟨by decide, by decide, by decide⟩

/-- C10 at its failing input, every width at least 1: on a fresh timeline of
width 100, `jobA` is reported and runs for three ticks, `jobB` is reported,
`jobA` is reported again and runs for three ticks; the runs are then
`[(jobA, 4), (jobB, 1), (jobA, 4)]` with total 6.  A resize to width 1 makes
the loop remove both runs `(jobA, 4)` and then the last remaining run
`(jobB, 1)`; the list is empty, the loop reads the front of the empty list
and no amount of fuel lets the call return. -/
theorem C10_loop_empties_list :
    Timeline.run stdJobs 0 ⟨100, GanttProgress.new stdJobs⟩
        [Call.record jobA, Call.tick, Call.tick, Call.tick, Call.record jobB,
          Call.record jobA, Call.tick, Call.tick, Call.tick]
      = some ⟨100, ⟨(stdJobs.defaultJob, 0), [(jobA, 4), (jobB, 1), (jobA, 4)], 6⟩⟩ ∧
    remove stdJobs (jobB, 1) (remove stdJobs (jobA, 4) [(jobA, 4), (jobB, 1), (jobA, 4)]) = [] ∧
    ∀ fuel, Timeline.run stdJobs fuel ⟨100, GanttProgress.new stdJobs⟩
        [Call.record jobA, Call.tick, Call.tick, Call.tick, Call.record jobB,
          Call.record jobA, Call.tick, Call.tick, Call.tick, Call.setCapacity 1] = none := by
  refine ⟨by decide, by decide, ?_⟩
  intro fuel
  have r1 : remove stdJobs (jobA, 4) [(jobA, 4), (jobB, 1), (jobA, 4)] = [(jobB, 1)] := by
    decide
  have r2 : remove stdJobs (jobB, 1) [(jobB, 1)] = [] := by decide
  have hloop : GanttProgress.adjustLoop stdJobs fuel 5
      ⟨(stdJobs.defaultJob, 0), [(jobA, 4), (jobB, 1), (jobA, 4)], 6⟩ = none := by
    cases fuel with
    | zero => rfl
    | succ f =>
      rw [GanttProgress.adjustLoop]
      simp only [GanttProgress.first]
      rw [if_pos (by decide), r1]
      cases f with
      | zero => rfl
      | succ f =>
        rw [GanttProgress.adjustLoop]
        simp only [GanttProgress.first]
        rw [if_pos (by decide), r2]
        exact GanttProgress.adjustLoop_empty_spins stdJobs _ _ f _ (by decide)
  have hlast : GanttProgress.resizeEvent stdJobs fuel 1
      ⟨(stdJobs.defaultJob, 0), [(jobA, 4), (jobB, 1), (jobA, 4)], 6⟩ = none := by
    unfold GanttProgress.resizeEvent GanttProgress.adjustGraph
    rw [if_neg (by decide)]
    have e : (6 : Int) - 1 = 5 := by decide
    simp only [e, hloop]
  have hpre : Timeline.run stdJobs fuel ⟨100, GanttProgress.new stdJobs⟩
      [Call.record jobA, Call.tick, Call.tick, Call.tick, Call.record jobB,
        Call.record jobA, Call.tick, Call.tick, Call.tick]
      = some ⟨100, ⟨(stdJobs.defaultJob, 0), [(jobA, 4), (jobB, 1), (jobA, 4)], 6⟩⟩ :=
    run_fuel_mono stdJobs 0 fuel (Nat.zero_le _) _ _ _ (by decide)
  have happ := run_append stdJobs fuel _ [Call.setCapacity 1] _ _ hpre
  simp only [List.cons_append, List.nil_append] at happ
  rw [happ]
  simp only [Timeline.run, Timeline.step, hlast, Option.map_none']

end Icemon
